import Mathlib

/-!
Verification of the dynaconf AWS SSM loader against its specification.

The development shallowly embeds the Python sources:
  * `dynaconf_aws_loader/util.py`   — `slashes_to_dict`, `pull_from_env_or_obj`,
    `NamespaceFilter`
  * `dynaconf_aws_loader/loader.py` — `build_env_list`, `load`,
    `_fetch_single_parameter`, `_fetch_all_parameters`

Python dictionaries are modelled as ordered association lists with unique keys
and first-match lookup; mutation is modelled by explicit state passing; code
that can raise is modelled with `Except`.
-/

/-! ## Python string primitives -/

/-- Embedding of Python `str.lower` (ASCII, which is all SSM names allow). -/
def pyLower (s : String) : String :=
  String.mk (s.data.map Char.toLower)

/-- Embedding of Python `str.strip()` (no argument): drop whitespace from both ends. -/
def pyStripWS (s : String) : String :=
  String.mk (((s.data.dropWhile Char.isWhitespace).reverse.dropWhile Char.isWhitespace).reverse)

/-- Drop every occurrence of character `c` from both ends of `l`,
embedding Python `str.strip(c)`. -/
def pyStripChar (c : Char) (l : List Char) : List Char :=
  ((l.dropWhile (· = c)).reverse.dropWhile (· = c)).reverse

/-- Embedding of Python `str.split("/")`: split on every slash, keeping empty
pieces; the empty string splits to `[""]`. -/
def splitSlash : List Char → List String
  | [] => [""]
  | c :: rest =>
    if c = '/' then "" :: splitSlash rest
    else
      match splitSlash rest with
      | [] => [String.mk [c]]
      | s :: ss => String.mk (c :: s.data) :: ss

/-- `key.strip("/").split("/")`, the path normalization performed by
`slashes_to_dict` in `util.py`. -/
def stripSplit (key : String) : List String :=
  splitSlash (pyStripChar '/' key.data)

/-- Bool-valued test that `needle` occurs contiguously inside `hay`,
embedding Python's substring operator `needle in hay`. -/
def infixB (needle : List Char) : List Char → Bool
  | [] => needle.isEmpty
  | c :: rest => needle.isPrefixOf (c :: rest) || infixB needle rest

/-- Python `needle in hay` on strings. -/
def pySubstr (needle hay : String) : Bool :=
  infixB needle.data hay.data

/-! ## Nested configuration trees (Python nested dicts of strings) -/

mutual
/-- A value stored in the decoded configuration: either a raw string leaf or a
nested dictionary, as produced by `slashes_to_dict`. -/
inductive JTree where
  | leaf (v : String) : JTree
  | node (entries : EntryList) : JTree
deriving DecidableEq

/-- The entries of a Python dict, in insertion order, keys unique. -/
inductive EntryList where
  | nil : EntryList
  | cons (k : String) (t : JTree) (rest : EntryList) : EntryList
deriving DecidableEq
end

/-- First-match key lookup, embedding Python `d[k]` / `k in d` on dicts. -/
def lookupE : EntryList → String → Option JTree
  | .nil, _ => none
  | .cons k t rest, s => if k = s then some t else lookupE rest s

/-- Embedding of Python dict assignment `d[k] = v`: replace the value at the
first occurrence of the key, keeping its position, or append a fresh entry. -/
def setE : EntryList → String → JTree → EntryList
  | .nil, s, u => .cons s u .nil
  | .cons k t rest, s, u => if k = s then .cons k u rest else .cons k t (setE rest s u)

/-- The keys of an entry list, in order. -/
def keysE : EntryList → List String
  | .nil => []
  | .cons k _ rest => k :: keysE rest

/-- Python truthiness of a decoded value: an empty dict and the empty string
are falsy, everything else is truthy. -/
def truthyTree : JTree → Bool
  | .node .nil => false
  | .node (.cons _ _ _) => true
  | .leaf s => decide (s ≠ "")

/-- Embedding of Python `seg in result` where `result` is either a dict
(key membership) or a string (substring test). -/
def pyIn (seg : String) : JTree → Bool
  | .node m => (lookupE m seg).isSome
  | .leaf s => infixB seg.data s.data

/-- Embedding of Python `result[seg]`: dict indexing, raising `KeyError` on a
missing key and `TypeError` when `result` is a string. -/
def indexTree : JTree → String → Except Unit JTree
  | .node m, seg =>
    match lookupE m seg with
    | some t => .ok t
    | none => .error ()
  | .leaf _, _ => .error ()

/-! ## Path decoder: `slashes_to_dict` (`util.py`, lines 9-29)

The inner loop of `slashes_to_dict` walks `cur_dict` through the path
segments using `setdefault`, assigning the value at the last segment.  When
`setdefault` returns an existing string leaf, the next iteration performs
item assignment or `setdefault` on a `str` and raises (`TypeError` /
`AttributeError`); this is modelled by `Except Unit`. -/

/-- One record's inner segment loop of `slashes_to_dict`. -/
def insertSegs : EntryList → List String → String → Except Unit EntryList
  | m, [], _ => .ok m
  | m, [s], v => .ok (setE m s (.leaf v))
  | m, s :: s2 :: rest, v =>
    match lookupE m s with
    | some (.node m2) =>
      match insertSegs m2 (s2 :: rest) v with
      | .ok m3 => .ok (setE m s (.node m3))
      | .error e => .error e
    | some (.leaf _) => .error ()
    | none =>
      match insertSegs .nil (s2 :: rest) v with
      | .ok m3 => .ok (setE m s (.node m3))
      | .error e => .error e

/-- The outer record loop of `slashes_to_dict` over single-key records. -/
def insertRecords : EntryList → List (String × String) → Except Unit EntryList
  | m, [] => .ok m
  | m, (k, v) :: rest =>
    match insertSegs m (stripSplit k) v with
    | .ok m2 => insertRecords m2 rest
    | .error e => .error e

/-- Embedding of `slashes_to_dict` (`util.py`): decode a list of single-key
slash-delimited records into a nested dictionary, starting from `{}`. -/
def slashes_to_dict (records : List (String × String)) : Except Unit EntryList :=
  insertRecords .nil records

/-! ## Re-flattening (modelled from the spec)

Modelled from the spec: the repository has no inverse of the path decoder;
section 8 of the spec postulates a `re-flatten(tree)` operation for the
round-trip property.  `flattenTree` lists every leaf of a tree together with
its segment path, the exact inverse shape of `insertSegs`. -/

mutual
/-- Modelled from the spec: re-flatten a decoded tree into (segment-path,
value) pairs; a bare leaf is the value at the empty path. -/
def flattenTree : JTree → List (List String × String)
  | .leaf v => [([], v)]
  | .node entries => flattenEntries entries

/-- Modelled from the spec: re-flatten the entries of a dict node. -/
def flattenEntries : EntryList → List (List String × String)
  | .nil => []
  | .cons k t rest =>
    (flattenTree t).map (fun pv => (k :: pv.1, pv.2)) ++ flattenEntries rest
end

/-- Two segment paths are incomparable when neither is a (possibly equal)
prefix of the other. -/
def incomp (p q : List String) : Prop :=
  ¬ p <+: q ∧ ¬ q <+: p

instance (p q : List String) : Decidable (incomp p q) := by
  unfold incomp; infer_instance

/-- `p` is a strict (proper) prefix of `q`. -/
def strictPfx (p q : List String) : Prop :=
  p <+: q ∧ p ≠ q

instance (p q : List String) : Decidable (strictPfx p q) := by
  unfold strictPfx; infer_instance

instance {ε α : Type} [DecidableEq ε] [DecidableEq α] : DecidableEq (Except ε α) := fun a b =>
  match a, b with
  | .ok x, .ok y =>
    if h : x = y then isTrue (by rw [h]) else isFalse (by intro hc; cases hc; exact h rfl)
  | .error x, .error y =>
    if h : x = y then isTrue (by rw [h]) else isFalse (by intro hc; cases hc; exact h rfl)
  | .ok _, .error _ => isFalse (by intro hc; cases hc)
  | .error _, .ok _ => isFalse (by intro hc; cases hc)

/-! ## Environment list: `build_env_list` (`loader.py`, lines 35-58) -/

/-- The `env_list` local of `build_env_list` after the default-environment
block: the lower-cased default environment name when the load-default flag is
true (its default) and the name is truthy. -/
def defaultEnvPart (loadDefaultEnv : Option Bool) (defaultEnvSetting : Option String) :
    List String :=
  if loadDefaultEnv.getD true = true then
    let default_env_name := defaultEnvSetting.getD "default"
    if default_env_name ≠ "" ∧ pyLower default_env_name ≠ "" then
      [pyLower default_env_name]
    else []
  else []

/-- The `env_list` local of `build_env_list` just before the final
`map(str.strip, env_list)`: the lower-cased default environment (when the
load-default flag is true, its default), then the lower-cased requested
environment when not already present. -/
def rawEnvList (loadDefaultEnv : Option Bool) (defaultEnvSetting : Option String)
    (env : Option String) : List String :=
  let env_list := defaultEnvPart loadDefaultEnv defaultEnvSetting
  match env with
  | some e =>
    if e ≠ "" ∧ pyLower e ∉ env_list then env_list ++ [pyLower e] else env_list
  | none => env_list

/-- Embedding of `build_env_list` (`loader.py`): the raw environment list with
`str.strip` mapped over it, exactly as the Python `return` does. -/
def build_env_list (loadDefaultEnv : Option Bool) (defaultEnvSetting : Option String)
    (env : Option String) : List String :=
  (rawEnvList loadDefaultEnv defaultEnvSetting env).map pyStripWS

/-! ## Settings-object helpers: `pull_from_env_or_obj` (`util.py`, lines 32-43) -/

/-- First-match lookup in a string-valued mapping (Python `mapping.get(k)`). -/
def lookupA {α : Type} : List (String × α) → String → Option α
  | [], _ => none
  | (k, v) :: rest, s => if k = s then some v else lookupA rest s

/-- Python `mapping[k] = v` / `obj.set(k, v)` on a string-valued mapping:
replace in place or append. -/
def setA {α : Type} : List (String × α) → String → α → List (String × α)
  | [], s, u => [(s, u)]
  | (k, v) :: rest, s, u =>
    if k = s then (k, u) :: rest else (k, v) :: setA rest s u

/-- Embedding of `pull_from_env_or_obj` (`util.py`): read the key from the
process environment; on a miss fall back to the settings object, on a hit
write the value back into the settings object.  Returns the resolved value
and the (possibly updated) settings object. -/
def pull_from_env_or_obj (key_name : String) (env : List (String × String))
    (obj : List (String × String)) : Option String × List (String × String) :=
  match lookupA env key_name with
  | none => (lookupA obj key_name, obj)
  | some v => (some v, setA obj key_name v)

/-! ## Single-parameter fetch: `_fetch_single_parameter` (`loader.py`, lines 199-238) -/

/-- Outcome of the SSM `get_parameter` call as seen by the loader: a value, a
`ClientError` carrying an error code (`ParameterNotFound` for a missing
path), or a `BotoCoreError` (transport failure). -/
inductive SSMResponse where
  | ok (v : String) : SSMResponse
  | clientError (code : String) : SSMResponse
  | botoCoreError : SSMResponse
deriving DecidableEq

/-- The fault propagated by the loader in strict mode. -/
inductive FetchErr where
  | clientErr (code : String) : FetchErr
  | botoErr : FetchErr
deriving DecidableEq

/-- Embedding of the error-handling core of `_fetch_single_parameter`
(`loader.py`): any store fault returns `none` (Python `return` with no value)
when `silent`, and re-raises the original fault otherwise; a successful
response yields the parameter value (value coercion by `parse_conf_data` is
external and kept as the raw string). -/
def fetch_single_parameter (resp : SSMResponse) (silent : Bool) :
    Except FetchErr (Option String) :=
  match resp with
  | .ok v => .ok (some v)
  | .clientError code => if silent then .ok none else .error (.clientErr code)
  | .botoCoreError => if silent then .ok none else .error .botoErr

/-! ## Subtree pruning: tail of `_fetch_all_parameters` (`loader.py`, lines 280-292) -/

/-- Embedding of the pruning block at the end of `_fetch_all_parameters`:

```
if result and project_prefix in result:
    result = result[project_prefix]
    if result and env_name in result:
        result = result[env_name]
    if namespace_prefix is not None and namespace_prefix in result:
        result = result[namespace_prefix]
return result
```

Note that the environment and namespace steps are syntactically nested inside
the project branch.  `Except Unit` models the `TypeError` Python would raise
when indexing a string by a string. -/
def pruneFetched (t : JTree) (projectPfx env_name : String) (nsOpt : Option String) :
    Except Unit JTree :=
  if truthyTree t && pyIn projectPfx t then
    match indexTree t projectPfx with
    | .error e => .error e
    | .ok r1 =>
      match (if truthyTree r1 && pyIn env_name r1 then indexTree r1 env_name else .ok r1) with
      | .error e => .error e
      | .ok r2 =>
        match nsOpt with
        | some nsp => if pyIn nsp r2 then indexTree r2 nsp else .ok r2
        | none => .ok r2
  else
    .ok t

/-! ## Settings-object update (modelled from the spec)

Modelled from the spec: the settings object is the host framework's
(`dynaconf.base.Settings`, not part of this repository).  Per spec section 6,
`update(tree)` "deep-merges `tree` into existing state, later calls override
earlier ones at conflicting leaf paths". -/

mutual
/-- Modelled from the spec: deep merge of an update into the current value;
the update wins except that two dict nodes merge key-wise. -/
def mergeTree : JTree → JTree → JTree
  | .node m1, .node m2 => .node (mergeInto m1 m2)
  | _, t2 => t2

/-- Modelled from the spec: fold the override entries into the base entries,
left to right. -/
def mergeInto (base : EntryList) : EntryList → EntryList
  | .nil => base
  | .cons k t2 rest =>
    mergeInto
      (match lookupE base k with
       | some t1 => setE base k (mergeTree t1 t2)
       | none => setE base k t2)
      rest
end

/-! ## The `load` orchestrator (`loader.py`, lines 61-196)

`load` is decomposed into the pieces the claims are about.  The store client
is external: fetch outcomes are passed in as functions/values. -/

/-- Faults raised by `load` itself. -/
inductive LoadErr where
  | noRegion : LoadErr
  | configurationError : LoadErr
deriving DecidableEq

/-- The settings key holding the mandatory project prefix. -/
def prefix_key_name : String := "SSM_PARAMETER_PROJECT_PREFIX_FOR_DYNACONF"

/-- The settings key holding the optional namespace. -/
def namespace_key_name : String := "SSM_PARAMETER_NAMESPACE_FOR_DYNACONF"

/-- Embedding of the front of `load` (`loader.py`, lines 114-133): client
construction (`regionOk = false` models `NoRegionError`), resolution of the
project prefix and namespace via `pull_from_env_or_obj`, and the
unconditional `ValueError` — the spec's `ConfigurationError` — when the
project prefix is absent.  Returns `none` when `load` gives up silently, else
the resolved prefix, namespace and updated settings mapping. -/
def loadFront (regionOk : Bool) (silent : Bool) (osEnv : List (String × String))
    (obj : List (String × String)) :
    Except LoadErr (Option (String × Option String × List (String × String))) :=
  if regionOk then
    match pull_from_env_or_obj prefix_key_name osEnv obj with
    | (projectVal, obj1) =>
      match pull_from_env_or_obj namespace_key_name osEnv obj1 with
      | (namespaceVal, obj2) =>
        match projectVal with
        | none => .error .configurationError
        | some p => .ok (some (p, namespaceVal, obj2))
  else
    if silent then .ok none else .error .noRegion

/-- Embedding of the single-key branch of `load`'s environment loop
(`loader.py`, lines 137-158): the body runs for the first environment and
executes `return` unconditionally.  `fetch` is the tolerant-mode outcome of
`_fetch_single_parameter` for a lower-cased environment name; the write
happens only for a truthy value (`if value:`).  Returns the settings data and
the list of environments actually consulted. -/
def loadSingleKey (envList : List String) (fetch : String → Option String)
    (key : String) (data : EntryList) : EntryList × List String :=
  match envList with
  | [] => (data, [])
  | envName :: _ =>
    let en := pyLower envName
    match fetch en with
    | some v => (if v ≠ "" then setE data key (.leaf v) else data, [en])
    | none => (data, [en])

/-- Embedding of the full-load branch of `load`'s environment loop body
(`loader.py`, lines 159-196) for one environment: fetch the non-namespaced
subtree, filter it when a filter strategy is configured, `update` the
settings; then, when a namespace is configured, fetch the namespaced subtree
and `update` again.  Fetch outcomes are passed in (`none` models a
tolerantly-swallowed store fault).  Returns the settings data after the
spec-modelled deep-merge `update`s, together with the ordered list of update
payloads issued to the settings object. -/
def loadFullEnvStep (normalResults namespacedResults : Option JTree)
    (nsOpt : Option String) (filterStrategy : Option (JTree → JTree))
    (data : JTree) : JTree × List JTree :=
  let step1 : JTree × List JTree :=
    match normalResults with
    | some nr =>
      if truthyTree nr then
        let nr1 := match filterStrategy with
          | some f => f nr
          | none => nr
        (mergeTree data nr1, [nr1])
      else (data, [])
    | none => (data, [])
  match nsOpt with
  | some _ =>
    match namespacedResults with
    | some xr =>
      if truthyTree xr then (mergeTree step1.1 xr, step1.2 ++ [xr])
      else step1
    | none => step1
  | none => step1

/-! ## Namespace filter: `NamespaceFilter.__call__` (`util.py`, lines 46-70) -/

/-- Embedding of `NamespaceFilter.__call__`: rebuild the mapping, skipping
every entry whose key contains the configured prefix as a substring. -/
def namespaceFilterCall {α : Type} (pfx : String) (data : List (String × α)) :
    List (String × α) :=
  data.foldl (fun result kv => if pySubstr pfx kv.1 then result else setA result kv.1 kv.2) []

/-- The fetch outcomes used by the claim C1 counterexample: a value exists
only under the `testing` environment. -/
def cexFetch : String → Option String :=
  fun e => if e = "testing" then some "x" else none

/-! ## Basic lemmas about the dict model -/

theorem lookupE_setE : ∀ (m : EntryList) (s : String) (u : JTree),
    lookupE (setE m s u) s = some u
  | .nil, s, u => by simp [setE, lookupE]
  | .cons k t rest, s, u => by
    by_cases h : k = s
    · subst h; simp [setE, lookupE]
    · simp [setE, lookupE, h, lookupE_setE rest s u]

theorem lookupE_setE_ne : ∀ (m : EntryList) (s : String) (u : JTree) (k : String),
    k ≠ s → lookupE (setE m s u) k = lookupE m k
  | .nil, s, u, k, h => by
    have hs : ¬ s = k := fun hh => h hh.symm
    simp [setE, lookupE, hs]
  | .cons k2 t rest, s, u, k, h => by
    by_cases h2 : k2 = s
    · subst h2
      have hs : ¬ k2 = k := fun hh => h hh.symm
      simp [setE, lookupE, hs]
    · simp [setE, lookupE, h2]
      by_cases h3 : k2 = k
      · simp [h3]
      · simp [h3, lookupE_setE_ne rest s u k h]

theorem lookupE_eq_none_iff : ∀ (m : EntryList) (k : String),
    lookupE m k = none ↔ k ∉ keysE m
  | .nil, k => by simp [lookupE, keysE]
  | .cons k2 t rest, k => by
    by_cases h : k2 = k
    · subst h; simp [lookupE, keysE]
    · simp [lookupE, keysE, h, Ne.symm h, lookupE_eq_none_iff rest k]

/-! ## Claim C9 -/

/-- Claim C9: when the store reports not-found for a single-key fetch, the
fetch returns absence (`.ok none`) and raises nothing in tolerant mode, and
raises the underlying fault in strict mode; moreover in tolerant mode no
`ClientError` code whatsoever is treated as an error. -/
theorem c9_single_fetch_not_found :
    fetch_single_parameter (.clientError "ParameterNotFound") true = .ok none ∧
    fetch_single_parameter (.clientError "ParameterNotFound") false
      = .error (.clientErr "ParameterNotFound") ∧
    ∀ code : String, fetch_single_parameter (.clientError code) true = .ok none :=
  ⟨rfl, rfl, fun _ => rfl⟩

/-! ## Claim C5 -/

/-- Claim C5: when the project-prefix setting is absent from both the settings
object and the process environment, `load` raises its configuration error, in
strict (`silent = false`) and tolerant (`silent = true`) mode alike, given
that the store client could be constructed (`regionOk = true`). -/
theorem c5_missing_project_raises (silent : Bool)
    (osEnv obj : List (String × String))
    (h1 : lookupA osEnv prefix_key_name = none)
    (h2 : lookupA obj prefix_key_name = none) :
    loadFront true silent osEnv obj = .error .configurationError := by
  simp [loadFront, pull_from_env_or_obj, h1, h2]

theorem c5_missing_project_raises_witness :
    loadFront true true [] [] = .error .configurationError ∧
    loadFront true false [("OTHER", "x")] [] = .error .configurationError :=
  ⟨c5_missing_project_raises true [] [] rfl rfl,
   c5_missing_project_raises false [("OTHER", "x")] [] (by decide) rfl⟩

/-! ## Claim C4 -/

/-- Claim C4 counterexample: with the key present in both the process
environment and the settings object, `pull_from_env_or_obj` resolves to the
process environment's value, not the settings object's — the lookup chain
consults the process environment first, contradicting the claimed
settings-object-first order. -/
theorem c4_cex_env_wins :
    (pull_from_env_or_obj "K" [("K", "envval")] [("K", "objval")]).1 = some "envval" ∧
    (pull_from_env_or_obj "K" [("K", "envval")] [("K", "objval")]).1 ≠ some "objval" := by
  decide

/-- Claim C4 (amended): the project-prefix lookup chain consults the process
environment first and the settings object second; the resolved value is
written back into the settings object only when it came from the process
environment (on an environment miss the settings object is left unchanged). -/
theorem c4_lookup_chain (key_name : String) (env obj : List (String × String)) :
    (pull_from_env_or_obj key_name env obj).1
      = Option.or (lookupA env key_name) (lookupA obj key_name) ∧
    (lookupA env key_name = none → (pull_from_env_or_obj key_name env obj).2 = obj) ∧
    (∀ v, lookupA env key_name = some v →
      (pull_from_env_or_obj key_name env obj).2 = setA obj key_name v) := by
  refine ⟨?_, ?_, ?_⟩
  · cases h : lookupA env key_name <;> simp [pull_from_env_or_obj, h, Option.or]
  · intro h; simp [pull_from_env_or_obj, h]
  · intro v h; simp [pull_from_env_or_obj, h]

theorem c4_lookup_chain_witness :
    (pull_from_env_or_obj "K" [("K", "envval")] []).1 = some "envval" ∧
    (pull_from_env_or_obj "K" [("K", "envval")] []).2 = setA [] "K" "envval" :=
  ⟨(c4_lookup_chain "K" [("K", "envval")] []).1,
   (c4_lookup_chain "K" [("K", "envval")] []).2.2 "envval" rfl⟩

/-! ## Claim C1 -/

/-- Claim C1 counterexample: environment list `["default", "testing"]`, a
value present only under `testing`.  The loader consults only `default`,
never `testing`, and writes nothing — contradicting the claim that
environments yielding no value do not prevent later ones from being tried. -/
theorem c1_cex_first_env_only :
    loadSingleKey ["default", "testing"] cexFetch "k" .nil = (.nil, ["default"]) ∧
    "testing" ∉ (loadSingleKey ["default", "testing"] cexFetch "k" .nil).2 ∧
    lookupE (loadSingleKey ["default", "testing"] cexFetch "k" .nil).1 "k" = none ∧
    cexFetch "testing" = some "x" := by
  decide

/-- Claim C1 (amended): for a single-key load the loop body runs for the first
environment only and returns unconditionally: exactly the first environment is
consulted; a present truthy value is written under the key, an absent value
writes nothing — and in either case no later environment is ever tried. -/
theorem c1_single_key_first_env (e : String) (rest : List String)
    (fetch : String → Option String) (key : String) (data : EntryList) :
    (loadSingleKey (e :: rest) fetch key data).2 = [pyLower e] ∧
    (∀ v, fetch (pyLower e) = some v → v ≠ "" →
      (loadSingleKey (e :: rest) fetch key data).1 = setE data key (.leaf v)) ∧
    (fetch (pyLower e) = none → (loadSingleKey (e :: rest) fetch key data).1 = data) := by
  refine ⟨?_, ?_, ?_⟩
  · cases h : fetch (pyLower e) <;> simp [loadSingleKey, h]
  · intro v hv hne; simp [loadSingleKey, hv, hne]
  · intro h; simp [loadSingleKey, h]

theorem c1_single_key_first_env_witness :
    (loadSingleKey ["E", "f"] (fun _ => some "x") "k" .nil).2 = [pyLower "E"] ∧
    (loadSingleKey ["E", "f"] (fun _ => some "x") "k" .nil).1 = setE .nil "k" (.leaf "x") :=
  ⟨(c1_single_key_first_env "E" ["f"] (fun _ => some "x") "k" .nil).1,
   (c1_single_key_first_env "E" ["f"] (fun _ => some "x") "k" .nil).2.1 "x" rfl (by decide)⟩

/-! ## Claim C3 -/

/-- Claim C3 counterexample: the decoder is not total — after the record
`("a", "v")` stores a leaf at `a`, the record `("a/b", "w")` needs `a` as an
intermediate node and the decode raises (Python `TypeError` on item
assignment into a `str`) instead of silently keeping the last write. -/
theorem c3_cex_leaf_collision_raises :
    slashes_to_dict [("a", "v"), ("a/b", "w")] = .error () := by
  decide

/-- Claim C3 (amended): the decoder raises whenever a record's path needs an
existing leaf as an intermediate node; in the other collision direction a
terminal write silently replaces whatever the key held (leaf or whole
subtree) — last write wins with no validation. -/
theorem c3_decoder_collision_behavior :
    (∀ (m : EntryList) (s s2 : String) (rest : List String) (w v : String),
      lookupE m s = some (.leaf w) → insertSegs m (s :: s2 :: rest) v = .error ()) ∧
    (∀ (m : EntryList) (s v : String),
      insertSegs m [s] v = .ok (setE m s (.leaf v)) ∧
      lookupE (setE m s (.leaf v)) s = some (.leaf v)) := by
  refine ⟨?_, ?_⟩
  · intro m s s2 rest w v h
    simp [insertSegs, h]
  · intro m s v
    exact ⟨rfl, lookupE_setE m s (.leaf v)⟩

theorem c3_decoder_collision_behavior_witness :
    insertSegs (.cons "a" (.leaf "v") .nil) ["a", "b"] "w" = .error () ∧
    insertSegs (.cons "a" (.node (.cons "b" (.leaf "w") .nil)) .nil) ["a"] "v"
      = .ok (setE (.cons "a" (.node (.cons "b" (.leaf "w") .nil)) .nil) "a" (.leaf "v")) :=
  ⟨(c3_decoder_collision_behavior).1 (.cons "a" (.leaf "v") .nil) "a" "b" [] "v" "w" rfl,
   ((c3_decoder_collision_behavior).2 (.cons "a" (.node (.cons "b" (.leaf "w") .nil)) .nil) "a" "v").1⟩

/-! ## Claim C6 -/

/-- Claim C6 counterexample: with default environment `"testing "` (trailing
space) and requested environment `"testing"`, the duplicate check runs before
`str.strip`, so the resolved list is `["testing", "testing"]` — duplicates
are not removed from the final (trimmed) list. -/
theorem c6_cex_whitespace_duplicate :
    build_env_list none (some "testing ") (some "testing") = ["testing", "testing"] ∧
    ¬ (build_env_list none (some "testing ") (some "testing")).Nodup := by
  decide

theorem defaultEnvPart_nodup (loadDefaultEnv : Option Bool)
    (defaultEnvSetting : Option String) :
    (defaultEnvPart loadDefaultEnv defaultEnvSetting).Nodup := by
  unfold defaultEnvPart
  split
  · dsimp only
    split <;> simp
  · simp

theorem rawEnvList_nodup (loadDefaultEnv : Option Bool)
    (defaultEnvSetting : Option String) (env : Option String) :
    (rawEnvList loadDefaultEnv defaultEnvSetting env).Nodup := by
  unfold rawEnvList
  cases env with
  | none => exact defaultEnvPart_nodup loadDefaultEnv defaultEnvSetting
  | some e =>
    dsimp only
    split
    · rename_i hc
      simp [List.nodup_append, defaultEnvPart_nodup loadDefaultEnv defaultEnvSetting, hc.2]
    · exact defaultEnvPart_nodup loadDefaultEnv defaultEnvSetting

/-- Claim C6 (amended): the resolved environment list is the default
environment (when the load-default flag is true, its default) followed by the
requested environment when distinct, each lower-cased, with the duplicate
check performed on the lower-cased names before whitespace-trimming: the
pre-trim list is always duplicate-free (trimming, applied last, can
reintroduce duplicates).  In particular default `"default"` with override
`"Testing"` resolves to exactly `["default", "testing"]`. -/
theorem c6_env_list_resolution :
    build_env_list none (some "default") (some "Testing") = ["default", "testing"] ∧
    (∀ (loadDefaultEnv : Option Bool) (defaultEnvSetting : Option String)
       (env : Option String),
      build_env_list loadDefaultEnv defaultEnvSetting env
        = (rawEnvList loadDefaultEnv defaultEnvSetting env).map pyStripWS ∧
      (rawEnvList loadDefaultEnv defaultEnvSetting env).Nodup) :=
  ⟨by decide, fun a b c => ⟨rfl, rawEnvList_nodup a b c⟩⟩

/-! ## Claim C8 -/

/-- Claim C8 counterexample: tree `{"dev": {"k": "v"}}` with project `"app"`,
environment `"dev"`.  The project segment is absent, so the code skips the
environment step entirely and returns the tree unchanged — the claim's
independent per-segment pruning would have removed the `"dev"` level. -/
theorem c8_cex_env_prune_gated_on_project :
    pruneFetched (.node (.cons "dev" (.node (.cons "k" (.leaf "v") .nil)) .nil))
        "app" "dev" none
      = .ok (.node (.cons "dev" (.node (.cons "k" (.leaf "v") .nil)) .nil)) ∧
    pruneFetched (.node (.cons "dev" (.node (.cons "k" (.leaf "v") .nil)) .nil))
        "app" "dev" none
      ≠ .ok (.node (.cons "k" (.leaf "v") .nil)) := by
  decide

/-- Claim C8 (amended): pruning removes the project, environment and namespace
segments in that order, but the environment and namespace steps are attempted
only when the project segment was present and removed; each attempted step
applies only if that exact segment key exists at the current tree root, and a
tree whose root lacks the project segment (or is falsy) is returned entirely
unchanged — so pruning by an absent segment is a no-op at every stage. -/
theorem c8_prune_structure :
    (∀ (t : JTree) (p e : String) (nsOpt : Option String),
      (truthyTree t && pyIn p t) = false → pruneFetched t p e nsOpt = .ok t) ∧
    (∀ (m m1 m2 : EntryList) (sub : JTree) (p e nsp : String),
      lookupE m p = some (.node m1) → lookupE m1 e = some (.node m2) →
      lookupE m2 nsp = some sub →
      pruneFetched (.node m) p e (some nsp) = .ok sub) ∧
    (∀ (m m1 : EntryList) (p e : String),
      lookupE m p = some (.node m1) → pyIn e (.node m1) = false →
      pruneFetched (.node m) p e none = .ok (.node m1)) ∧
    (∀ (m m1 m2 : EntryList) (p e nsp : String),
      lookupE m p = some (.node m1) → lookupE m1 e = some (.node m2) →
      pyIn nsp (.node m2) = false →
      pruneFetched (.node m) p e (some nsp) = .ok (.node m2)) ∧
    (∀ (m m1 : EntryList) (sub : JTree) (p e nsp : String),
      lookupE m p = some (.node m1) → pyIn e (.node m1) = false →
      lookupE m1 nsp = some sub →
      pruneFetched (.node m) p e (some nsp) = .ok sub) ∧
    (∀ (m m1 : EntryList) (p e nsp : String),
      lookupE m p = some (.node m1) → pyIn e (.node m1) = false →
      pyIn nsp (.node m1) = false →
      pruneFetched (.node m) p e (some nsp) = .ok (.node m1)) := by
  refine ⟨?_, ?_, ?_, ?_, ?_, ?_⟩
  · intro t p e nsOpt h
    simp [pruneFetched, h]
  · intro m m1 m2 sub p e nsp h1 h2 h3
    have hm : truthyTree (.node m) = true := by
      cases m with
      | nil => simp [lookupE] at h1
      | cons k t rest => rfl
    have hm1 : truthyTree (.node m1) = true := by
      cases m1 with
      | nil => simp [lookupE] at h2
      | cons k t rest => rfl
    simp [pruneFetched, pyIn, indexTree, hm, hm1, h1, h2, h3]
  · intro m m1 p e h1 h2
    have h2e : (lookupE m1 e).isSome = false := h2
    have hm : truthyTree (.node m) = true := by
      cases m with
      | nil => simp [lookupE] at h1
      | cons k t rest => rfl
    simp [pruneFetched, pyIn, indexTree, hm, h1, h2e]
  · intro m m1 m2 p e nsp h1 h2 h3
    have h3n : (lookupE m2 nsp).isSome = false := h3
    have hm : truthyTree (.node m) = true := by
      cases m with
      | nil => simp [lookupE] at h1
      | cons k t rest => rfl
    have hm1 : truthyTree (.node m1) = true := by
      cases m1 with
      | nil => simp [lookupE] at h2
      | cons k t rest => rfl
    simp [pruneFetched, pyIn, indexTree, hm, hm1, h1, h2, h3n]
  · intro m m1 sub p e nsp h1 h2 h3
    have h2e : (lookupE m1 e).isSome = false := h2
    have hm : truthyTree (.node m) = true := by
      cases m with
      | nil => simp [lookupE] at h1
      | cons k t rest => rfl
    simp [pruneFetched, pyIn, indexTree, hm, h1, h2e, h3]
  · intro m m1 p e nsp h1 h2 h3
    have h2e : (lookupE m1 e).isSome = false := h2
    have h3n : (lookupE m1 nsp).isSome = false := h3
    have hm : truthyTree (.node m) = true := by
      cases m with
      | nil => simp [lookupE] at h1
      | cons k t rest => rfl
    simp [pruneFetched, pyIn, indexTree, hm, h1, h2e, h3n]

theorem c8_prune_structure_witness :
    pruneFetched (.node .nil) "p" "e" none = .ok (.node .nil) ∧
    pruneFetched
        (.node (.cons "p" (.node (.cons "e" (.node (.cons "n" (.leaf "s") .nil)) .nil)) .nil))
        "p" "e" (some "n")
      = .ok (.leaf "s") ∧
    pruneFetched (.node (.cons "p" (.node (.cons "x" (.leaf "y") .nil)) .nil)) "p" "e" none
      = .ok (.node (.cons "x" (.leaf "y") .nil)) ∧
    pruneFetched
        (.node (.cons "p" (.node (.cons "e" (.node (.cons "k" (.leaf "v") .nil)) .nil)) .nil))
        "p" "e" (some "n")
      = .ok (.node (.cons "k" (.leaf "v") .nil)) ∧
    pruneFetched (.node (.cons "p" (.node (.cons "n" (.leaf "s") .nil)) .nil)) "p" "e" (some "n")
      = .ok (.leaf "s") ∧
    pruneFetched (.node (.cons "p" (.node (.cons "x" (.leaf "y") .nil)) .nil)) "p" "e" (some "n")
      = .ok (.node (.cons "x" (.leaf "y") .nil)) :=
  ⟨(c8_prune_structure).1 (.node .nil) "p" "e" none rfl,
   (c8_prune_structure).2.1 _ _ _ (.leaf "s") "p" "e" "n" rfl rfl rfl,
   (c8_prune_structure).2.2.1 _ (.cons "x" (.leaf "y") .nil) "p" "e" rfl (by decide),
   (c8_prune_structure).2.2.2.1 _ _ (.cons "k" (.leaf "v") .nil) "p" "e" "n" rfl rfl (by decide),
   (c8_prune_structure).2.2.2.2.1 _ (.cons "n" (.leaf "s") .nil) (.leaf "s") "p" "e" "n"
     rfl (by decide) rfl,
   (c8_prune_structure).2.2.2.2.2 _ (.cons "x" (.leaf "y") .nil) "p" "e" "n"
     rfl (by decide) (by decide)⟩

/-! ## Claim C10 -/

theorem isPrefixOf_iff_chars : ∀ (l1 l2 : List Char), l1.isPrefixOf l2 = true ↔ l1 <+: l2
  | [], l2 => by simp [List.isPrefixOf]
  | a :: l1, [] => by simp [List.isPrefixOf]
  | a :: l1, b :: l2 => by
    simp [List.isPrefixOf, isPrefixOf_iff_chars l1 l2, List.cons_prefix_cons]

theorem infixB_iff : ∀ (n h : List Char), infixB n h = true ↔ n <:+: h
  | n, [] => by simp [infixB, List.isEmpty_iff]
  | n, c :: rest => by
    simp [infixB, isPrefixOf_iff_chars, infixB_iff n rest, List.infix_cons_iff]

theorem setA_of_not_mem {α : Type} : ∀ (l : List (String × α)) (k : String) (v : α),
    k ∉ l.map Prod.fst → setA l k v = l ++ [(k, v)]
  | [], _, _, _ => rfl
  | (k2, v2) :: rest, k, v, h => by
    simp only [List.map_cons, List.mem_cons, not_or] at h
    have hk : ¬ k2 = k := fun hh => h.1 hh.symm
    simp [setA, hk, setA_of_not_mem rest k v h.2]

theorem filterCall_go {α : Type} (pfx : String) :
    ∀ (data acc : List (String × α)),
    (∀ kv ∈ data, kv.1 ∉ acc.map Prod.fst) →
    (data.map Prod.fst).Nodup →
    data.foldl (fun result kv => if pySubstr pfx kv.1 then result else setA result kv.1 kv.2) acc
      = acc ++ data.filter (fun kv => !(pySubstr pfx kv.1))
  | [], acc, _, _ => by simp
  | (k, v) :: rest, acc, hfresh, hnodup => by
    have hnd : (rest.map Prod.fst).Nodup ∧ k ∉ rest.map Prod.fst := by
      simpa [List.nodup_cons, and_comm] using hnodup
    simp only [List.foldl_cons]
    by_cases hs : pySubstr pfx k
    · have ih := filterCall_go pfx rest acc (fun kv hkv => hfresh kv (List.mem_cons_of_mem _ hkv)) hnd.1
      simpa [hs, List.filter_cons] using ih
    · have hksa : setA acc k v = acc ++ [(k, v)] :=
        setA_of_not_mem acc k v (hfresh (k, v) (List.mem_cons_self _ _))
      have ih := filterCall_go pfx rest (acc ++ [(k, v)])
        (by
          intro kv hkv
          simp only [List.map_append, List.mem_append, List.map_cons, List.map_nil,
            List.mem_singleton, not_or]
          refine ⟨hfresh kv (List.mem_cons_of_mem _ hkv), ?_⟩
          intro hh
          exact hnd.2 (hh ▸ List.mem_map_of_mem Prod.fst hkv)) hnd.1
      rw [if_neg hs, hksa, ih]
      simp [hs, List.filter_cons, List.append_assoc]

/-- Claim C10 (implicit): the namespace filter strategy returns exactly the
entries of the input mapping whose key does not contain the configured prefix
as a substring anywhere in the key — values unchanged and no keys added (it
equals a plain filter of the input); and the membership test is genuine
substring containment, not a leading-prefix test. -/
theorem c10_namespace_filter {α : Type} (pfx : String) (data : List (String × α))
    (h : (data.map Prod.fst).Nodup) :
    namespaceFilterCall pfx data = data.filter (fun kv => !(pySubstr pfx kv.1)) ∧
    (∀ needle hay : String, pySubstr needle hay = true ↔ needle.data <:+: hay.data) := by
  constructor
  · have hgo := filterCall_go pfx data [] (by simp) h
    simpa [namespaceFilterCall] using hgo
  · intro n hy
    exact infixB_iff n.data hy.data

theorem c10_namespace_filter_witness :
    namespaceFilterCall "ns" [("ans-key", "1"), ("good", "2")]
      = List.filter (fun kv => !(pySubstr "ns" kv.1)) [("ans-key", "1"), ("good", "2")] ∧
    (pySubstr "ns" "ans-key" = true ↔ ("ns".data : List Char) <:+: "ans-key".data) :=
  ⟨(c10_namespace_filter "ns" [("ans-key", "1"), ("good", "2")] (by decide)).1,
   (c10_namespace_filter "ns" [("ans-key", "1"), ("good", "2")] (by decide)).2 "ns" "ans-key"⟩

/-! ## Claim C2 -/

theorem mergeTree_leaf : ∀ (t : JTree) (v : String), mergeTree t (.leaf v) = .leaf v
  | .leaf _, _ => rfl
  | .node _, _ => rfl

theorem mergeInto_absent : ∀ (m2 m1 : EntryList) (k : String),
    lookupE m2 k = none → lookupE (mergeInto m1 m2) k = lookupE m1 k
  | .nil, m1, k, _ => rfl
  | .cons k2 t2 rest, m1, k, h => by
    have hk : ¬ k2 = k := by
      intro hh
      subst hh
      simp [lookupE] at h
    have hr : lookupE rest k = none := by simpa [lookupE, hk] using h
    show lookupE (mergeInto _ rest) k = lookupE m1 k
    rw [mergeInto_absent rest _ k hr]
    cases hkk : lookupE m1 k2 with
    | some t1 => simp [hkk, lookupE_setE_ne _ k2 _ k (fun hh => hk hh.symm)]
    | none => simp [hkk, lookupE_setE_ne _ k2 _ k (fun hh => hk hh.symm)]

theorem mergeInto_leaf_wins : ∀ (m2 m1 : EntryList) (k v : String),
    (keysE m2).Nodup → lookupE m2 k = some (.leaf v) →
    lookupE (mergeInto m1 m2) k = some (.leaf v)
  | .nil, m1, k, v, _, h => by simp [lookupE] at h
  | .cons k2 t2 rest, m1, k, v, hnd, h => by
    have hnd' : (keysE rest).Nodup ∧ k2 ∉ keysE rest := by
      simpa [keysE, List.nodup_cons, and_comm] using hnd
    by_cases hk : k2 = k
    · subst hk
      have ht2 : t2 = .leaf v := by simpa [lookupE] using h
      subst ht2
      have hrest : lookupE rest k2 = none := (lookupE_eq_none_iff rest k2).mpr hnd'.2
      show lookupE (mergeInto _ rest) k2 = _
      rw [mergeInto_absent rest _ k2 hrest]
      cases hkk : lookupE m1 k2 with
      | some t1 => simp [hkk, mergeTree_leaf, lookupE_setE]
      | none => simp [hkk, lookupE_setE]
    · have hr : lookupE rest k = some (.leaf v) := by simpa [lookupE, hk] using h
      exact mergeInto_leaf_wins rest _ k v hnd'.1 hr

/-- Claim C2: for a full load with a namespace configured, when both subtree
fetches return (truthy) data the loop body issues exactly two updates, in
order: the possibly-filtered non-namespaced subtree first, the namespaced
subtree second, and the final settings state is the sequential deep merge of
the two in that order.  Under the spec-modelled deep-merge update semantics a
key set by the namespaced update wins over the non-namespaced value, a key
untouched by the namespaced update keeps its earlier value (union otherwise);
the spec's merge example evaluates accordingly. -/
theorem c2_full_load_two_updates (nr xr : JTree) (nsName : String)
    (filt : Option (JTree → JTree)) (data : JTree)
    (hnr : truthyTree nr = true) (hxr : truthyTree xr = true) :
    (loadFullEnvStep (some nr) (some xr) (some nsName) filt data
      = (mergeTree (mergeTree data (filt.elim nr (fun f => f nr))) xr,
         [filt.elim nr (fun f => f nr), xr])) ∧
    (∀ (m1 m2 : EntryList) (k : String), lookupE m2 k = none →
      lookupE (mergeInto m1 m2) k = lookupE m1 k) ∧
    (∀ (m1 m2 : EntryList) (k v : String), (keysE m2).Nodup →
      lookupE m2 k = some (.leaf v) → lookupE (mergeInto m1 m2) k = some (.leaf v)) ∧
    mergeTree
        (.node (.cons "a" (.leaf "1") (.cons "b" (.node (.cons "c" (.leaf "2") .nil)) .nil)))
        (.node (.cons "b" (.node (.cons "c" (.leaf "3") .nil)) (.cons "d" (.leaf "4") .nil)))
      = .node (.cons "a" (.leaf "1")
          (.cons "b" (.node (.cons "c" (.leaf "3") .nil)) (.cons "d" (.leaf "4") .nil))) := by
  refine ⟨?_, fun m1 m2 k h => mergeInto_absent m2 m1 k h,
    fun m1 m2 k v hn h => mergeInto_leaf_wins m2 m1 k v hn h, by decide⟩
  cases filt <;> simp [loadFullEnvStep, hnr, hxr, Option.elim]

theorem c2_full_load_two_updates_witness :
    loadFullEnvStep (some (.node (.cons "a" (.leaf "1") .nil)))
        (some (.node (.cons "d" (.leaf "4") .nil))) (some "n") none (.node .nil)
      = (.node (.cons "a" (.leaf "1") (.cons "d" (.leaf "4") .nil)),
         [.node (.cons "a" (.leaf "1") .nil), .node (.cons "d" (.leaf "4") .nil)]) := by
  have h := (c2_full_load_two_updates (.node (.cons "a" (.leaf "1") .nil))
    (.node (.cons "d" (.leaf "4") .nil)) "n" none (.node .nil) rfl rfl).1
  simpa [Option.elim] using h

/-! ## Claim C7: round-trip of decode and re-flatten -/

theorem splitSlash_ne_nil : ∀ (l : List Char), splitSlash l ≠ []
  | [] => by simp [splitSlash]
  | c :: rest => by
    by_cases h : c = '/'
    · simp [splitSlash, h]
    · simp only [splitSlash, h, if_false]
      cases hs : splitSlash rest with
      | nil => simp
      | cons s ss => simp

theorem lookupE_flatten_mem : ∀ (m : EntryList) (s : String) (t : JTree),
    lookupE m s = some t → ∀ (p : List String) (w : String),
    (p, w) ∈ flattenTree t → (s :: p, w) ∈ flattenEntries m
  | .nil, s, t, h => by simp [lookupE] at h
  | .cons k t2 rest, s, t, h => by
    intro p w hpw
    by_cases hk : k = s
    · subst hk
      have ht : t2 = t := by simpa [lookupE] using h
      subst ht
      simp only [flattenEntries, List.mem_append]
      exact Or.inl (List.mem_map.mpr ⟨(p, w), hpw, rfl⟩)
    · have h2 : lookupE rest s = some t := by simpa [lookupE, hk] using h
      simp only [flattenEntries, List.mem_append]
      exact Or.inr (lookupE_flatten_mem rest s t h2 p w hpw)

theorem setE_flatten_none : ∀ (m : EntryList) (s : String) (u : JTree),
    lookupE m s = none →
    flattenEntries (setE m s u)
      = flattenEntries m ++ (flattenTree u).map (fun pv => (s :: pv.1, pv.2))
  | .nil, s, u, _ => by simp [setE, flattenEntries]
  | .cons k t rest, s, u, h => by
    have hk : ¬ k = s := by
      intro hh
      subst hh
      simp [lookupE] at h
    have h2 : lookupE rest s = none := by simpa [lookupE, hk] using h
    simp [setE, hk, flattenEntries, setE_flatten_none rest s u h2, List.append_assoc]

theorem setE_flatten_some : ∀ (m : EntryList) (s : String) (t : JTree),
    lookupE m s = some t →
    ∃ A B, flattenEntries m = A ++ (flattenTree t).map (fun pv => (s :: pv.1, pv.2)) ++ B ∧
      ∀ u, flattenEntries (setE m s u)
        = A ++ (flattenTree u).map (fun pv => (s :: pv.1, pv.2)) ++ B
  | .nil, s, t, h => by simp [lookupE] at h
  | .cons k t2 rest, s, t, h => by
    by_cases hk : k = s
    · subst hk
      have ht : t2 = t := by simpa [lookupE] using h
      subst ht
      refine ⟨[], flattenEntries rest, by simp [flattenEntries], ?_⟩
      intro u
      simp [setE, flattenEntries]
    · have h2 : lookupE rest s = some t := by simpa [lookupE, hk] using h
      obtain ⟨A, B, hAB, hset⟩ := setE_flatten_some rest s t h2
      refine ⟨(flattenTree t2).map (fun pv => (k :: pv.1, pv.2)) ++ A, B, ?_, ?_⟩
      · simp [flattenEntries, hAB, List.append_assoc]
      · intro u
        simp [setE, hk, flattenEntries, hset u, List.append_assoc]

theorem perm_extract {α : Type} (A X B : List α) (y : α) :
    List.Perm (A ++ (X ++ [y]) ++ B) ((A ++ X ++ B) ++ [y]) := by
  have h1 : A ++ (X ++ [y]) ++ B = (A ++ X) ++ (y :: B) := by simp [List.append_assoc]
  have h2 : List.Perm ((A ++ X) ++ (y :: B)) (y :: ((A ++ X) ++ B)) := List.perm_middle
  have h3 : List.Perm ((A ++ X ++ B) ++ [y]) (y :: (A ++ X ++ B)) :=
    List.perm_append_singleton y (A ++ X ++ B)
  rw [h1]
  exact h2.trans h3.symm

theorem insertSegs_flatten : ∀ (segs : List String) (m : EntryList) (v : String),
    segs ≠ [] →
    (∀ q w, (q, w) ∈ flattenEntries m → incomp q segs) →
    ∃ m2, insertSegs m segs v = .ok m2 ∧
      List.Perm (flattenEntries m2) (flattenEntries m ++ [(segs, v)])
  | [], _, _, h, _ => absurd rfl h
  | [s], m, v, _, hinc => by
    cases hl : lookupE m s with
    | none =>
      refine ⟨setE m s (.leaf v), rfl, ?_⟩
      rw [setE_flatten_none m s (.leaf v) hl]
      simp [flattenTree]
    | some t =>
      have hft : flattenTree t = [] := by
        by_contra hne
        obtain ⟨pw, rest2, hcons⟩ : ∃ pw rest2, flattenTree t = pw :: rest2 := by
          cases hft2 : flattenTree t with
          | nil => exact absurd hft2 hne
          | cons a b => exact ⟨a, b, rfl⟩
        have hmem : (s :: pw.1, pw.2) ∈ flattenEntries m :=
          lookupE_flatten_mem m s t hl pw.1 pw.2 (by rw [hcons]; exact List.mem_cons_self _ _)
        have hinc2 := hinc _ _ hmem
        cases hp : pw.1 with
        | nil => exact hinc2.1 (by rw [hp])
        | cons a l =>
          exact hinc2.2 (by
            rw [hp]
            exact List.cons_prefix_cons.mpr ⟨rfl, List.nil_prefix⟩)
      obtain ⟨A, B, hAB, hset⟩ := setE_flatten_some m s t hl
      refine ⟨setE m s (.leaf v), rfl, ?_⟩
      rw [hset (.leaf v), hAB, hft]
      have hpe := perm_extract A ([] : List (List String × String)) B (([s], v))
      simpa [flattenTree] using hpe
  | s :: s2 :: rest, m, v, _, hinc => by
    cases hl : lookupE m s with
    | none =>
      obtain ⟨m3, hm3, hperm⟩ :=
        insertSegs_flatten (s2 :: rest) .nil v (by simp) (by simp [flattenEntries])
      refine ⟨setE m s (.node m3), ?_, ?_⟩
      · simp [insertSegs, hl, hm3]
      · rw [setE_flatten_none m s (.node m3) hl]
        have hmap : List.Perm ((flattenTree (.node m3)).map (fun pv => (s :: pv.1, pv.2)))
            ([(s :: s2 :: rest, v)]) := by
          have hm := hperm.map (fun pv => (s :: pv.1, pv.2))
          simpa [flattenTree, flattenEntries] using hm
        exact List.Perm.append_left (flattenEntries m) hmap
    | some t =>
      cases t with
      | leaf w =>
        have hmem : ([s], w) ∈ flattenEntries m :=
          lookupE_flatten_mem m s (.leaf w) hl [] w (by simp [flattenTree])
        have hinc2 := hinc _ _ hmem
        exact absurd (List.cons_prefix_cons.mpr ⟨rfl, List.nil_prefix⟩) hinc2.1
      | node m2 =>
        have hcond : ∀ q w, (q, w) ∈ flattenEntries m2 → incomp q (s2 :: rest) := by
          intro q w hq
          have hmem : (s :: q, w) ∈ flattenEntries m :=
            lookupE_flatten_mem m s (.node m2) hl q w (by simpa [flattenTree] using hq)
          have hinc2 := hinc _ _ hmem
          constructor
          · intro hpre
            exact hinc2.1 (List.cons_prefix_cons.mpr ⟨rfl, hpre⟩)
          · intro hpre
            exact hinc2.2 (List.cons_prefix_cons.mpr ⟨rfl, hpre⟩)
        obtain ⟨m3, hm3, hperm⟩ := insertSegs_flatten (s2 :: rest) m2 v (by simp) hcond
        obtain ⟨A, B, hAB, hset⟩ := setE_flatten_some m s (.node m2) hl
        refine ⟨setE m s (.node m3), ?_, ?_⟩
        · simp [insertSegs, hl, hm3]
        · rw [hset (.node m3), hAB]
          have hmap : List.Perm ((flattenTree (.node m3)).map (fun pv => (s :: pv.1, pv.2)))
              (((flattenTree (.node m2)).map (fun pv => (s :: pv.1, pv.2)))
                ++ [(s :: s2 :: rest, v)]) := by
            have hm := hperm.map (fun pv => (s :: pv.1, pv.2))
            simpa [flattenTree, List.map_append] using hm
          have h1 := List.Perm.append_right B (List.Perm.append_left A hmap)
          exact h1.trans (perm_extract A _ B _)

theorem insertRecords_flatten : ∀ (rs : List (String × String)) (m : EntryList),
    (∀ r ∈ rs, ∀ q w, (q, w) ∈ flattenEntries m → incomp q (stripSplit r.1)) →
    List.Pairwise (fun r r2 => incomp (stripSplit r.1) (stripSplit r2.1)) rs →
    ∃ m2, insertRecords m rs = .ok m2 ∧
      List.Perm (flattenEntries m2)
        (flattenEntries m ++ rs.map (fun r => (stripSplit r.1, r.2)))
  | [], m, _, _ => ⟨m, rfl, by simp⟩
  | (k, v) :: rs, m, hfresh, hpw => by
    have hne : stripSplit k ≠ [] := splitSlash_ne_nil _
    obtain ⟨m1, hm1, hp1⟩ := insertSegs_flatten (stripSplit k) m v hne
      (fun q w hq => hfresh (k, v) (List.mem_cons_self _ _) q w hq)
    have hpw2 := List.pairwise_cons.mp hpw
    obtain ⟨m2, hm2, hp2⟩ := insertRecords_flatten rs m1
      (by
        intro r hr q w hq
        rcases List.mem_append.mp (hp1.mem_iff.mp hq) with hq3 | hq3
        · exact hfresh r (List.mem_cons_of_mem _ hr) q w hq3
        · have hqk : q = stripSplit k := by
            have := List.mem_singleton.mp hq3
            exact congrArg Prod.fst this
          rw [hqk]
          exact hpw2.1 r hr)
      hpw2.2
    refine ⟨m2, ?_, ?_⟩
    · simp [insertRecords, hm1, hm2]
    · refine hp2.trans ((List.Perm.append_right _ hp1).trans ?_)
      rw [List.append_assoc, List.singleton_append, List.map_cons]

/-- Claim C7 counterexample: the records `[("a", "1"), ("a", "2")]` satisfy
the claim's hypothesis (no path is a strict prefix of another — the two paths
are equal), yet the decode keeps only the last write, so re-flattening loses
`(["a"], "1")` and does not yield the original path/value set. -/
theorem c7_cex_duplicate_path :
    List.Pairwise
      (fun r r2 => ¬ strictPfx (stripSplit r.1) (stripSplit r2.1) ∧
        ¬ strictPfx (stripSplit r2.1) (stripSplit r.1))
      [("a", "1"), ("a", "2")] ∧
    slashes_to_dict [("a", "1"), ("a", "2")] = .ok (.cons "a" (.leaf "2") .nil) ∧
    (stripSplit "a", "1")
      ∈ List.map (fun r => (stripSplit r.1, r.2)) [(("a" : String), ("1" : String)), ("a", "2")] ∧
    (stripSplit "a", "1") ∉ flattenEntries (.cons "a" (.leaf "2") .nil) := by
  decide

/-- Claim C7 (amended): for every collection of flat path/value records whose
normalized paths (stripped of surrounding separators and split on `/`) are
pairwise incomparable — no normalized path is a prefix, strict or equal, of
another, which in particular makes the normalized paths pairwise distinct —
decoding succeeds and re-flattening the decoded tree yields exactly the
records' normalized path/value pairs, as a permutation. -/
theorem c7_roundtrip (records : List (String × String))
    (h : List.Pairwise (fun r r2 => incomp (stripSplit r.1) (stripSplit r2.1)) records) :
    ∃ m, slashes_to_dict records = .ok m ∧
      List.Perm (flattenEntries m) (records.map (fun r => (stripSplit r.1, r.2))) := by
  obtain ⟨m, hm, hp⟩ := insertRecords_flatten records .nil
    (by intro r _ q w hq; simp [flattenEntries] at hq) h
  exact ⟨m, hm, by simpa [flattenEntries] using hp⟩

theorem c7_roundtrip_witness :
    List.Pairwise (fun r r2 => incomp (stripSplit r.1) (stripSplit r2.1))
      [("/app/dev/db/host", "localhost"), ("/app/prod/db/host", "db.app.com"),
        ("/app/prod/db/port", "3456")] ∧
    ∃ m, slashes_to_dict
        [("/app/dev/db/host", "localhost"), ("/app/prod/db/host", "db.app.com"),
          ("/app/prod/db/port", "3456")] = .ok m ∧
      List.Perm (flattenEntries m)
        (List.map (fun r => (stripSplit r.1, r.2))
          [("/app/dev/db/host", "localhost"), ("/app/prod/db/host", "db.app.com"),
            ("/app/prod/db/port", "3456")]) :=
  ⟨by decide, c7_roundtrip _ (by decide)⟩
